import Mathlib

/-!
Verification development for the eventually-persistent key-value store core:
the store front of `src/ep.cc` (hash-table backed set/del, the dirty queue and
the flusher pipeline, and the flusher lifecycle state machine), the task
comparators of `src/src/tasks.h`, and the hash table exercised by
`src/engines/ep/tests/module_tests/hash_table_test.cc`.

Machinery that the store-front file uses but whose definitions are not part of
the sources at hand (the hash-table header, the Priority class, `less_tv`) is
modelled from the specification; every such definition carries a doc comment
that starts with "Modelled from the spec:".  Statistics, locks and wall-clock
sampling are outside the functional model.
-/

namespace Ep

/-- An item as passed to `EventuallyPersistentStore::set`: key, flags,
expiry time and value payload. -/
structure Item where
  key : String
  flags : Nat
  exptime : Nat
  value : String
  deriving DecidableEq, Repr

/-- Modelled from the spec: the document slot (`StoredValue`, declared in the
missing hash-table header).  One in-memory record per key: key, flags, expiry,
value payload and the dirty flag. -/
structure StoredValue where
  key : String
  flags : Nat
  exptime : Nat
  value : String
  dirty : Bool
  deriving DecidableEq, Repr

/-- Modelled from the spec: the mutation result of the hash-table `set`
(declared in the missing hash-table header): it distinguishes a first write
(`NOT_FOUND`), a previously flushed slot (`WAS_CLEAN`), an already pending
slot (`WAS_DIRTY`), and a capacity failure (`NOMEM`). -/
inductive mutation_type_t where
  | NOT_FOUND
  | WAS_CLEAN
  | WAS_DIRTY
  | NOMEM
  deriving DecidableEq, Repr

/-- The store-front hash table, modelled as the list of its slots (bucketing
and per-bucket locks do not affect the quiescent functional behaviour). -/
abbrev HashTable := List StoredValue

/-- Modelled from the spec: `HashTable::unlocked_find` returns the slot for
the key, if any. -/
def HashTable.unlocked_find (st : HashTable) (k : String) : Option StoredValue :=
  st.find? (fun v => v.key == k)

/-- Modelled from the spec: the hash-table `set` overwrites an existing slot
in place (marking it dirty) or inserts a fresh dirty slot, and reports whether
the slot was clean, dirty or absent. -/
def HashTable.set (st : HashTable) (i : Item) : mutation_type_t × HashTable :=
  match HashTable.unlocked_find st i.key with
  | some v =>
      ((if v.dirty then mutation_type_t.WAS_DIRTY else mutation_type_t.WAS_CLEAN),
       st.map (fun w =>
         if w.key == i.key then
           { key := w.key, flags := i.flags, exptime := i.exptime,
             value := i.value, dirty := true }
         else w))
  | none =>
      (mutation_type_t.NOT_FOUND,
       st ++ [{ key := i.key, flags := i.flags, exptime := i.exptime,
                value := i.value, dirty := true }])

/-- Modelled from the spec: the hash-table `del` removes the slot for the key
(the flusher of `ep.cc` treats an absent slot as deleted), reporting whether
it existed. -/
def HashTable.del (st : HashTable) (k : String) : Bool × HashTable :=
  match HashTable.unlocked_find st k with
  | some _ => (true, st.filter (fun v => !(v.key == k)))
  | none => (false, st)

/-- Modelled from the spec: `StoredValue::markClean` clears the dirty flag of
the slot for the key. -/
def HashTable.markClean (st : HashTable) (k : String) : HashTable :=
  st.map (fun v => if v.key == k then { v with dirty := false } else v)

/-- The mutable state of `EventuallyPersistentStore`: the hash table
(`storage`) and the dirty queue (`towrite`). -/
structure EventuallyPersistentStore where
  storage : HashTable
  towrite : List String
  deriving DecidableEq, Repr

/-- The body of `EventuallyPersistentStore::set` (ep.cc:94-103) after the
hash-table call, over an arbitrary mutation result: enqueue the key on a
`WAS_CLEAN` or `NOT_FOUND` result, then invoke the callback once with `true`.
The returned list collects the callback invocations. -/
def EventuallyPersistentStore.setCore (s : EventuallyPersistentStore) (i : Item)
    (res : mutation_type_t × HashTable) : EventuallyPersistentStore × List Bool :=
  let tw :=
    if res.1 = mutation_type_t.WAS_CLEAN ∨ res.1 = mutation_type_t.NOT_FOUND then
      s.towrite ++ [i.key]
    else s.towrite
  ({ storage := res.2, towrite := tw }, [true])

/-- `EventuallyPersistentStore::set` (ep.cc:94-103). -/
def EventuallyPersistentStore.set (s : EventuallyPersistentStore) (i : Item) :
    EventuallyPersistentStore × List Bool :=
  EventuallyPersistentStore.setCore s i (HashTable.set s.storage i)

/-- `EventuallyPersistentStore::del` (ep.cc:143-149): delete from the hash
table, enqueue the key whenever it existed, and report existence through the
callback (invoked once; the returned list collects the invocations). -/
def EventuallyPersistentStore.del (s : EventuallyPersistentStore) (k : String) :
    EventuallyPersistentStore × List Bool :=
  let res := HashTable.del s.storage k
  ({ storage := res.2,
     towrite := if res.1 then s.towrite ++ [k] else s.towrite }, [res.1])

/-- One operation issued to the persistence layer (`KVStore`). -/
inductive PersistOp where
  | begin
  | set (i : Item)
  | del (k : String)
  | commit
  deriving DecidableEq, Repr

/-- `EventuallyPersistentStore::flushOne` (ep.cc:199-241): pop one key from the
swapped-out queue and re-resolve it against the hash table; a found dirty slot
is marked clean and a persistence `set` of a copy of its current state is
issued; an absent slot yields a persistence `del`; a found clean slot is
skipped with no operation.  (Age statistics are outside the model.) -/
def flushOne (st : HashTable) (q : List String) :
    HashTable × List String × List PersistOp :=
  match q with
  | [] => (st, [], [])
  | key :: rest =>
    match HashTable.unlocked_find st key with
    | some v =>
        if v.dirty then
          (HashTable.markClean st key, rest,
           [PersistOp.set { key := key, flags := v.flags, exptime := v.exptime,
                            value := v.value }])
        else
          (st, rest, [])
    | none => (st, rest, [PersistOp.del key])

/-- The loop of `EventuallyPersistentStore::flushSome` (ep.cc:188-190): up to
`txnSize` calls of `flushOne` while the queue is nonempty. -/
def flushLoop (txnSize : Nat) (st : HashTable) (q : List String) :
    HashTable × List String × List PersistOp :=
  match txnSize with
  | 0 => (st, q, [])
  | n + 1 =>
    match q with
    | [] => (st, [], [])
    | key :: rest =>
      let r1 := flushOne st (key :: rest)
      let r2 := flushLoop n r1.1 r1.2.1
      (r2.1, r2.2.1, r1.2.2 ++ r2.2.2)

/-- `EventuallyPersistentStore::flushSome` (ep.cc:185-197): one persistence
transaction (`begin`, up to `txnSize` `flushOne` steps, `commit`). -/
def flushSome (txnSize : Nat) (st : HashTable) (q : List String) :
    HashTable × List String × List PersistOp :=
  let r := flushLoop txnSize st q
  (r.1, r.2.1, PersistOp.begin :: (r.2.2 ++ [PersistOp.commit]))

/-- The drain loop of `EventuallyPersistentStore::flush` (ep.cc:172-174):
`flushSome` until the swapped-out queue is empty.  `fuel` bounds the number of
transactions; `q.length` suffices whenever `txnSize` is at least one (with a
`txnSize` of zero the source loop would not terminate). -/
def flushDrain (fuel txnSize : Nat) (st : HashTable) (q : List String) :
    HashTable × List String × List PersistOp :=
  match fuel with
  | 0 => (st, q, [])
  | f + 1 =>
    if q.isEmpty then (st, q, [])
    else
      let r1 := flushSome txnSize st q
      let r2 := flushDrain f txnSize r1.1 r1.2.1
      (r2.1, r2.2.1, r1.2.2 ++ r2.2.2)

/-- `EventuallyPersistentStore::flush` (ep.cc:151-183) on the nonempty-queue
path: swap out the dirty queue (replaced by a fresh empty one) and drain it,
returning the new store state and the persistence trace of the cycle. -/
def EventuallyPersistentStore.flush (txnSize : Nat)
    (s : EventuallyPersistentStore) : EventuallyPersistentStore × List PersistOp :=
  let r := flushDrain s.towrite.length txnSize s.storage s.towrite
  ({ storage := r.1, towrite := [] }, r.2.2)

/-- A flush cycle whose first persistence `commit` throws: `begin` and the
per-key operations of the first transaction were already issued and their
hash-table effects (clean marks) retained; the exception abandons the rest of
the swapped-out queue (the source leaks it) and unwinds to
`launch_flusher_thread`.  The store's dirty queue is the fresh queue created
at swap time. -/
def flushCycleCommitFail (txnSize : Nat) (s : EventuallyPersistentStore) :
    EventuallyPersistentStore × List PersistOp :=
  let r := flushLoop txnSize s.storage s.towrite
  ({ storage := r.1, towrite := [] }, PersistOp.begin :: r.2.2)

/-- How the flusher worker thread exits. -/
inductive FlusherThreadExit where
  | normal
  | caughtException (msg : String)
  deriving DecidableEq, Repr

/-- `launch_flusher_thread` (ep.cc:8-19): any exception escaping
`Flusher::run` is caught and logged at the thread boundary; the thread
returns normally either way and nothing propagates further. -/
def launch_flusher_thread (run : Except String Unit) : FlusherThreadExit :=
  match run with
  | Except.ok _ => FlusherThreadExit.normal
  | Except.error e => FlusherThreadExit.caughtException e

/-- The flusher lifecycle state (`flusher_state` of the store front). -/
inductive flusher_state where
  | STOPPED
  | RUNNING
  | SHUTTING_DOWN
  deriving DecidableEq, Repr

/-- `EventuallyPersistentStore::startFlusher` (ep.cc:58-70): a no-op unless the
state is `STOPPED`, in which case the worker thread is spawned and the state
becomes `RUNNING`.  The Bool records whether a thread was spawned. -/
def startFlusher (s : flusher_state) : flusher_state × Bool :=
  if s ≠ flusher_state.STOPPED then (s, false)
  else (flusher_state.RUNNING, true)

/-- `EventuallyPersistentStore::stopFlusher` (ep.cc:72-81): a no-op unless the
state is `RUNNING`, in which case the state becomes `SHUTTING_DOWN` and the
worker is woken.  The Bool records whether the stop request was made. -/
def stopFlusher (s : flusher_state) : flusher_state × Bool :=
  if s ≠ flusher_state.RUNNING then (s, false)
  else (flusher_state.SHUTTING_DOWN, true)

/-- `EventuallyPersistentStore::flusherStopped` (ep.cc:243-246), called by the
worker's exit path: the state returns to `STOPPED`. -/
def flusherStopped (_ : flusher_state) : flusher_state :=
  flusher_state.STOPPED

/-- Whether the slot for `k` is present and dirty. -/
def slotDirty (st : HashTable) (k : String) : Bool :=
  match HashTable.unlocked_find st k with
  | some v => v.dirty
  | none => false

/-- The key a persistence operation concerns, if any. -/
def opKey : PersistOp → Option String
  | PersistOp.set i => some i.key
  | PersistOp.del k => some k
  | PersistOp.begin => none
  | PersistOp.commit => none

/-- The persistence operations of a trace that concern key `k`. -/
def opsForKey (k : String) (t : List PersistOp) : List PersistOp :=
  t.filter (fun op => opKey op == some k)

/-- Whether a persistence operation is a document write (`set` or `del`). -/
def isMut : PersistOp → Bool
  | PersistOp.set _ => true
  | PersistOp.del _ => true
  | PersistOp.begin => false
  | PersistOp.commit => false

/-- Reference drain: process the whole queue with `flushOne`, one key at a
time, with no transaction brackets. -/
def drain (st : HashTable) (q : List String) : HashTable × List PersistOp :=
  match q with
  | [] => (st, [])
  | key :: rest =>
    let r1 := flushOne st (key :: rest)
    let r2 := drain r1.1 rest
    (r2.1, r1.2.2 ++ r2.2)

/-- A persistence trace that is a sequence of transactions: each bracketed by
exactly one `begin` and one `commit`, with at most `txnSize` document writes
in between. -/
inductive IsTxnSeq (txnSize : Nat) : List PersistOp → Prop where
  | nil : IsTxnSeq txnSize []
  | txn (ops rest : List PersistOp) (hops : ops.all isMut = true)
      (hlen : ops.length ≤ txnSize) (hrest : IsTxnSeq txnSize rest) :
      IsTxnSeq txnSize (PersistOp.begin :: (ops ++ PersistOp.commit :: rest))

end Ep

namespace Tasks

/-- A scheduler task as compared by the comparators of `src/src/tasks.h`:
its priority class, its monotonically increasing id, and its wake time.
The Priority class and `less_tv` are not among the sources; modelled from the
spec: priorities are linearly ordered with a larger value more important (the
ready max-heap pops higher priority first), and wake times are linearly
ordered instants. -/
structure GlobalTask where
  priority : Nat
  taskId : Nat
  waketime : Nat
  deriving DecidableEq, Repr

/-- `CompareByPriority` (tasks.h:365-372): equal priorities compare by task id
(`t1->taskId > t2->taskId`), otherwise by priority (`t1->priority <
t2->priority`). -/
def CompareByPriority (t1 t2 : GlobalTask) : Bool :=
  if t1.priority == t2.priority then decide (t2.taskId < t1.taskId)
  else decide (t1.priority < t2.priority)

/-- `CompareByDueDate` (tasks.h:374-382): `less_tv(t2->waketime,
t1->waketime)`. -/
def CompareByDueDate (t1 t2 : GlobalTask) : Bool :=
  decide (t2.waketime < t1.waketime)

/-- `t` pops before `u` from a max-heap ready set ordered by
`CompareByPriority`: the comparator ranks `u` strictly below `t`. -/
def readyRunsFirst (t u : GlobalTask) : Bool :=
  CompareByPriority u t

/-- The ready-set ordering as the spec words it: first by priority (higher
first), then, within equal priority, by earlier due date, then by lower id.
Stated for comparison against the comparator found in the source. -/
def specReadyOrder (t u : GlobalTask) : Bool :=
  decide (u.priority < t.priority)
  || (decide (t.priority = u.priority) && decide (t.waketime < u.waketime))
  || (decide (t.priority = u.priority) && decide (t.waketime = u.waketime)
      && decide (t.taskId < u.taskId))

end Tasks

namespace Modern

/-- Modelled from the spec: a document slot of the evolved hash table of
`hash_table_test.cc` (implementation not under the sources at hand): key,
value payload and the tombstone flag.  Keys are modelled as naturals and the
key hash as the identity. -/
structure StoredValue where
  key : Nat
  value : Nat
  deleted : Bool
  deriving DecidableEq, Repr

/-- Modelled from the spec: the evolved hash table: a resizable bucket array
with a fixed lock count and an aggregate item count; a key maps to bucket
(hash mod bucket count). -/
structure HashTable where
  size : Nat
  locks : Nat
  buckets : List (List StoredValue)
  numItems : Nat
  deriving DecidableEq, Repr

/-- A fresh table with `n` buckets and `l` locks. -/
def emptyHT (n l : Nat) : HashTable :=
  { size := n, locks := l, buckets := List.replicate n [], numItems := 0 }

/-- Search one bucket chain for the slot with the given key. -/
def findInBucket (b : List StoredValue) (k : Nat) : Option StoredValue :=
  b.find? (fun v => v.key == k)

/-- Apply the `wantsDeleted` filter of `find` to a located slot. -/
def wantsFilter (o : Option StoredValue) (wantsDeleted : Bool) : Option StoredValue :=
  match o with
  | some v => if v.deleted && !wantsDeleted then none else some v
  | none => none

/-- Modelled from the spec: `HashTable::find(key, wantsDeleted)` returns the
live slot, or the tombstone when `wantsDeleted`, or nothing.  (Reference
tracking only moves the recency counter and is outside the model.) -/
def HashTable.find (h : HashTable) (k : Nat) (wantsDeleted : Bool) :
    Option StoredValue :=
  wantsFilter (findInBucket (h.buckets.getD (k % h.size) []) k) wantsDeleted

/-- One bucket chain with the slot for `k` overwritten in place by a fresh
live slot carrying `val`. -/
def overwriteSlot (b : List StoredValue) (k val : Nat) : List StoredValue :=
  b.map (fun v =>
    if v.key == k then { key := k, value := val, deleted := false } else v)

/-- One bucket chain with the slot for `k` marked a tombstone. -/
def tombstoneSlot (b : List StoredValue) (k : Nat) : List StoredValue :=
  b.map (fun w => if w.key == k then { w with deleted := true } else w)

/-- Modelled from the spec: the evolved `set` overwrites an existing slot in
place (reviving a tombstone), or inserts a fresh live slot into the key's
bucket, counting it. -/
def HashTable.set (h : HashTable) (k val : Nat) : HashTable :=
  match findInBucket (h.buckets.getD (k % h.size) []) k with
  | some _ =>
      { h with buckets := h.buckets.set (k % h.size) (overwriteSlot (h.buckets.getD (k % h.size) []) k val) }
  | none =>
      { h with buckets := h.buckets.set (k % h.size) ({ key := k, value := val, deleted := false } :: h.buckets.getD (k % h.size) []), numItems := h.numItems + 1 }

/-- Modelled from the spec: soft delete marks the live slot for the key a
tombstone, retaining it (and the item count) until purged; a no-op when the
key is absent or already deleted. -/
def HashTable.del (h : HashTable) (k : Nat) : HashTable :=
  match findInBucket (h.buckets.getD (k % h.size) []) k with
  | some v =>
      if v.deleted then h
      else { h with buckets := h.buckets.set (k % h.size) (tombstoneSlot (h.buckets.getD (k % h.size) []) k) }
  | none => h

/-- All slots of the table, live and tombstoned. -/
def allSlots (h : HashTable) : List StoredValue :=
  h.buckets.flatten

/-- The live slots counted by a full visit. -/
def liveCount (h : HashTable) : Nat :=
  (allSlots h).countP (fun v => !v.deleted)

/-- The tombstoned slots counted by a full visit. -/
def deletedCount (h : HashTable) : Nat :=
  (allSlots h).countP (fun v => v.deleted)

/-- `HashTable::getNumItems`. -/
def HashTable.getNumItems (h : HashTable) : Nat :=
  h.numItems

/-- One mutating table operation. -/
inductive HTOp where
  | set (k val : Nat)
  | del (k : Nat)
  deriving DecidableEq, Repr

/-- Apply one operation. -/
def applyOp (h : HashTable) : HTOp → HashTable
  | HTOp.set k val => HashTable.set h k val
  | HTOp.del k => HashTable.del h k

/-- Apply a sequence of operations. -/
def applyOps (h : HashTable) (ops : List HTOp) : HashTable :=
  ops.foldl applyOp h

/-- The upper bound on an explicitly requested bucket count; the resize test
shows a request beyond the maximum representable count leaves the table
unchanged. -/
def maxHtSize : Nat := 2147483647

/-- The bucket array obtained by rehashing the given slots into `n` buckets. -/
def rehash (slots : List StoredValue) (n : Nat) : List (List StoredValue) :=
  (List.range n).map (fun i => slots.filter (fun v => v.key % n == i))

/-- Modelled from the spec: `resize(newSize)` rehashes every slot into a new
bucket array of the requested size; an out-of-range request is a no-op that
leaves the table unchanged.  (The auto-sizing path for a request of zero is
not modelled.) -/
def HashTable.resize (h : HashTable) (newSize : Nat) : HashTable :=
  if newSize = 0 ∨ maxHtSize < newSize then h
  else { h with size := newSize, buckets := rehash (allSlots h) newSize }

/-- The bookkeeping invariant of a table: the bucket array matches the
declared size, the size is positive, and the item counter counts the slots
present (live and tombstoned). -/
def Good (h : HashTable) : Prop :=
  h.buckets.length = h.size ∧ 0 < h.size ∧ h.numItems = (allSlots h).length

/-- Structural well-formedness of a table: the bucket array matches the
declared size, every slot sits in the bucket its key hashes to, and a key has
at most one slot. -/
abbrev WF (h : HashTable) : Prop :=
  h.buckets.length = h.size ∧ 0 < h.size ∧
  (∀ v ∈ allSlots h, ∀ w ∈ allSlots h, v.key = w.key → v = w) ∧
  (∀ i, i < h.buckets.length → ∀ v ∈ h.buckets.getD i [], v.key % h.size = i)

end Modern

namespace Ep

theorem find?_key_map (st : List StoredValue) (f : StoredValue → StoredValue)
    (hf : ∀ v, (f v).key = v.key) (k : String) :
    (st.map f).find? (fun v => v.key == k)
      = (st.find? (fun v => v.key == k)).map f := by
  induction st with
  | nil => rfl
  | cons w t ih =>
    simp only [List.map_cons, List.find?_cons, hf w]
    cases h : (w.key == k) <;> simp [h, ih]

theorem unlocked_find_key (st : HashTable) (k : String) (v : StoredValue)
    (h : HashTable.unlocked_find st k = some v) : v.key = k := by
  unfold HashTable.unlocked_find at h
  simpa using List.find?_some h

theorem unlocked_find_markClean (st : HashTable) (j k : String) :
    HashTable.unlocked_find (HashTable.markClean st j) k
      = (HashTable.unlocked_find st k).map
          (fun v => if v.key == j then { v with dirty := false } else v) := by
  unfold HashTable.markClean HashTable.unlocked_find
  exact find?_key_map st _ (fun v => by split <;> rfl) k

theorem unlocked_find_markClean_ne (st : HashTable) (j k : String) (h : k ≠ j) :
    HashTable.unlocked_find (HashTable.markClean st j) k
      = HashTable.unlocked_find st k := by
  rw [unlocked_find_markClean]
  cases hf : HashTable.unlocked_find st k with
  | none => rfl
  | some v =>
    have hk : v.key = k := unlocked_find_key st k v hf
    simp [hk, h]

theorem unlocked_find_markClean_self (st : HashTable) (k : String) :
    HashTable.unlocked_find (HashTable.markClean st k) k
      = (HashTable.unlocked_find st k).map (fun v => { v with dirty := false }) := by
  rw [unlocked_find_markClean]
  cases hf : HashTable.unlocked_find st k with
  | none => rfl
  | some v =>
    have hk : v.key = k := unlocked_find_key st k v hf
    simp [hk]

theorem unlocked_find_set_self (st : HashTable) (i : Item) :
    HashTable.unlocked_find (HashTable.set st i).2 i.key
      = some { key := i.key, flags := i.flags, exptime := i.exptime,
               value := i.value, dirty := true } := by
  unfold HashTable.set
  cases hf : HashTable.unlocked_find st i.key with
  | none =>
    unfold HashTable.unlocked_find at hf ⊢
    rw [List.find?_append, hf]
    simp
  | some v =>
    have hk : v.key = i.key := unlocked_find_key st i.key v hf
    simp only
    unfold HashTable.unlocked_find at hf ⊢
    rw [find?_key_map st _ (fun w => by split <;> rfl) i.key, hf]
    simp [hk]

theorem unlocked_find_set_ne (st : HashTable) (i : Item) (k : String) (h : k ≠ i.key) :
    HashTable.unlocked_find (HashTable.set st i).2 k
      = HashTable.unlocked_find st k := by
  unfold HashTable.set
  cases hf : HashTable.unlocked_find st i.key with
  | none =>
    unfold HashTable.unlocked_find
    rw [List.find?_append]
    cases hg : st.find? (fun v => v.key == k) with
    | some w => simp [Option.or]
    | none =>
      have hne : (i.key == k) = false := beq_eq_false_iff_ne.mpr (Ne.symm h)
      simp [Option.or, hne]
  | some v =>
    simp only
    unfold HashTable.unlocked_find
    rw [find?_key_map st _ (fun w => by split <;> rfl) k]
    cases hg : st.find? (fun v => v.key == k) with
    | none => rfl
    | some w =>
      have hk : w.key = k := by simpa using List.find?_some hg
      simp [hk, h]

theorem unlocked_find_del_self (st : HashTable) (k : String) :
    HashTable.unlocked_find (HashTable.del st k).2 k = none := by
  unfold HashTable.del
  cases hf : HashTable.unlocked_find st k with
  | none => exact hf
  | some v =>
    simp only
    unfold HashTable.unlocked_find
    rw [List.find?_eq_none]
    intro x hx
    have := (List.mem_filter.mp hx).2
    simpa using this

theorem ep_set_storage (s : EventuallyPersistentStore) (i : Item) :
    (EventuallyPersistentStore.set s i).1.storage = (HashTable.set s.storage i).2 := rfl

theorem ep_set_towrite (s : EventuallyPersistentStore) (i : Item) :
    (EventuallyPersistentStore.set s i).1.towrite
      = if slotDirty s.storage i.key then s.towrite else s.towrite ++ [i.key] := by
  unfold EventuallyPersistentStore.set EventuallyPersistentStore.setCore
    slotDirty HashTable.set
  cases hf : HashTable.unlocked_find s.storage i.key with
  | none => simp
  | some v => cases hd : v.dirty <;> simp [hd]

theorem ep_del_storage (s : EventuallyPersistentStore) (k : String) :
    (EventuallyPersistentStore.del s k).1.storage = (HashTable.del s.storage k).2 := rfl

theorem ep_del_towrite (s : EventuallyPersistentStore) (k : String) :
    (EventuallyPersistentStore.del s k).1.towrite
      = if (HashTable.unlocked_find s.storage k).isSome then s.towrite ++ [k]
        else s.towrite := by
  unfold EventuallyPersistentStore.del HashTable.del
  cases hf : HashTable.unlocked_find s.storage k <;> simp

theorem slotDirty_eq (st : HashTable) (k : String) :
    slotDirty st k = ((HashTable.unlocked_find st k).map StoredValue.dirty).getD false := by
  unfold slotDirty
  cases HashTable.unlocked_find st k <;> rfl

theorem slotDirty_markClean_false (st : HashTable) (j k : String)
    (h : slotDirty st k = false) : slotDirty (HashTable.markClean st j) k = false := by
  rw [slotDirty_eq] at h
  rw [slotDirty_eq, unlocked_find_markClean]
  cases hf : HashTable.unlocked_find st k with
  | none => rfl
  | some v =>
    rw [hf] at h
    simp only [Option.map_some', Option.getD_some] at h ⊢
    split
    · rfl
    · exact h

end Ep

namespace Ep

theorem flushOne_none (st : HashTable) (j : String) (rest : List String)
    (h : HashTable.unlocked_find st j = none) :
    flushOne st (j :: rest) = (st, rest, [PersistOp.del j]) := by
  simp [flushOne, h]

theorem flushOne_dirty (st : HashTable) (j : String) (rest : List String)
    (v : StoredValue) (h : HashTable.unlocked_find st j = some v)
    (hd : v.dirty = true) :
    flushOne st (j :: rest)
      = (HashTable.markClean st j, rest,
         [PersistOp.set { key := j, flags := v.flags, exptime := v.exptime,
                          value := v.value }]) := by
  simp [flushOne, h, hd]

theorem flushOne_clean (st : HashTable) (j : String) (rest : List String)
    (v : StoredValue) (h : HashTable.unlocked_find st j = some v)
    (hd : v.dirty = false) :
    flushOne st (j :: rest) = (st, rest, []) := by
  simp [flushOne, h, hd]

theorem drain_cons (st : HashTable) (j : String) (rest : List String) :
    drain st (j :: rest)
      = ((drain (flushOne st (j :: rest)).1 rest).1,
         (flushOne st (j :: rest)).2.2 ++ (drain (flushOne st (j :: rest)).1 rest).2) :=
  rfl

theorem opsForKey_nil (k : String) : opsForKey k [] = [] := rfl

theorem opsForKey_cons (k : String) (op : PersistOp) (t : List PersistOp) :
    opsForKey k (op :: t)
      = if opKey op == some k then op :: opsForKey k t else opsForKey k t := by
  simp [opsForKey, List.filter_cons]

theorem opsForKey_append (k : String) (a b : List PersistOp) :
    opsForKey k (a ++ b) = opsForKey k a ++ opsForKey k b := by
  simp [opsForKey, List.filter_append]

theorem drain_absent (k : String) : ∀ (q : List String) (st : HashTable),
    HashTable.unlocked_find st k = none →
    opsForKey k (drain st q).2
        = (q.filter (fun j => j == k)).map (fun _ => PersistOp.del k)
      ∧ HashTable.unlocked_find (drain st q).1 k = none := by
  intro q
  induction q with
  | nil => exact fun st h => ⟨rfl, h⟩
  | cons j rest ih =>
    intro st h
    by_cases hjk : j = k
    · subst hjk
      rw [drain_cons, flushOne_none st j rest h]
      refine ⟨?_, (ih st h).2⟩
      simp only [opsForKey_append, opsForKey_cons, opKey, opsForKey_nil]
      simp [(ih st h).1, List.filter_cons]
    · have hjk' : (j == k) = false := beq_eq_false_iff_ne.mpr hjk
      cases hf : HashTable.unlocked_find st j with
      | none =>
        rw [drain_cons, flushOne_none st j rest hf]
        refine ⟨?_, (ih st h).2⟩
        simp only [opsForKey_append, opsForKey_cons, opKey, opsForKey_nil]
        simp [(ih st h).1, List.filter_cons, hjk']
      | some v =>
        cases hd : v.dirty with
        | false =>
          rw [drain_cons, flushOne_clean st j rest v hf hd]
          refine ⟨?_, (ih st h).2⟩
          simp only [opsForKey_append, opsForKey_nil, List.nil_append]
          simp [(ih st h).1, List.filter_cons, hjk']
        | true =>
          rw [drain_cons, flushOne_dirty st j rest v hf hd]
          have hfind : HashTable.unlocked_find (HashTable.markClean st j) k = none := by
            rw [unlocked_find_markClean_ne st j k (Ne.symm hjk)]; exact h
          refine ⟨?_, (ih _ hfind).2⟩
          simp only [opsForKey_append, opsForKey_cons, opKey, opsForKey_nil]
          simp [(ih _ hfind).1, List.filter_cons, hjk']

theorem drain_clean (k : String) (v : StoredValue) (hd : v.dirty = false) :
    ∀ (q : List String) (st : HashTable),
    HashTable.unlocked_find st k = some v →
    opsForKey k (drain st q).2 = []
      ∧ HashTable.unlocked_find (drain st q).1 k = some v := by
  intro q
  induction q with
  | nil => exact fun st h => ⟨rfl, h⟩
  | cons j rest ih =>
    intro st h
    by_cases hjk : j = k
    · subst hjk
      rw [drain_cons, flushOne_clean st j rest v h hd]
      exact ⟨(ih st h).1, (ih st h).2⟩
    · have hjk' : (j == k) = false := beq_eq_false_iff_ne.mpr hjk
      cases hf : HashTable.unlocked_find st j with
      | none =>
        rw [drain_cons, flushOne_none st j rest hf]
        refine ⟨?_, (ih st h).2⟩
        simp only [opsForKey_append, opsForKey_cons, opKey, opsForKey_nil]
        simp [(ih st h).1, hjk']
      | some w =>
        cases hd' : w.dirty with
        | false =>
          rw [drain_cons, flushOne_clean st j rest w hf hd']
          exact ⟨(ih st h).1, (ih st h).2⟩
        | true =>
          rw [drain_cons, flushOne_dirty st j rest w hf hd']
          have hfind : HashTable.unlocked_find (HashTable.markClean st j) k = some v := by
            rw [unlocked_find_markClean_ne st j k (Ne.symm hjk)]; exact h
          refine ⟨?_, (ih _ hfind).2⟩
          simp only [opsForKey_append, opsForKey_cons, opKey, opsForKey_nil]
          simp [(ih _ hfind).1, hjk']

theorem drain_dirty (k : String) (v : StoredValue) (hd : v.dirty = true) :
    ∀ (q : List String) (st : HashTable),
    HashTable.unlocked_find st k = some v →
    opsForKey k (drain st q).2
      = if k ∈ q then
          [PersistOp.set { key := k, flags := v.flags, exptime := v.exptime,
                           value := v.value }]
        else [] := by
  intro q
  induction q with
  | nil => intro st _; simp [drain, opsForKey_nil]
  | cons j rest ih =>
    intro st h
    by_cases hjk : j = k
    · subst hjk
      rw [drain_cons, flushOne_dirty st j rest v h hd]
      have hfind : HashTable.unlocked_find (HashTable.markClean st j) j
          = some { v with dirty := false } := by
        rw [unlocked_find_markClean_self, h]; rfl
      have hrest := (drain_clean j { v with dirty := false } rfl rest _ hfind).1
      simp only [opsForKey_append, opsForKey_cons, opKey, opsForKey_nil]
      simp [hrest]
    · have hjk' : (j == k) = false := beq_eq_false_iff_ne.mpr hjk
      have hkj : k ≠ j := Ne.symm hjk
      cases hf : HashTable.unlocked_find st j with
      | none =>
        rw [drain_cons, flushOne_none st j rest hf]
        dsimp only
        simp only [opsForKey_append, opsForKey_cons, opKey, opsForKey_nil]
        simp [ih st h, hjk', List.mem_cons, hkj]
      | some w =>
        cases hd' : w.dirty with
        | false =>
          rw [drain_cons, flushOne_clean st j rest w hf hd']
          dsimp only
          simp only [opsForKey_append, opsForKey_nil, List.nil_append]
          rw [ih st h]
          simp [List.mem_cons, hkj]
        | true =>
          rw [drain_cons, flushOne_dirty st j rest w hf hd']
          have hfind : HashTable.unlocked_find (HashTable.markClean st j) k = some v := by
            rw [unlocked_find_markClean_ne st j k (Ne.symm hjk)]; exact h
          dsimp only
          simp only [opsForKey_append, opsForKey_cons, opKey, opsForKey_nil]
          simp [ih _ hfind, hjk', List.mem_cons, hkj]

end Ep

namespace Ep

theorem flushOne_q (st : HashTable) (j : String) (rest : List String) :
    (flushOne st (j :: rest)).2.1 = rest := by
  cases hf : HashTable.unlocked_find st j with
  | none => rw [flushOne_none st j rest hf]
  | some v =>
    cases hd : v.dirty with
    | false => rw [flushOne_clean st j rest v hf hd]
    | true => rw [flushOne_dirty st j rest v hf hd]

theorem flushOne_mut (st : HashTable) (q : List String) :
    (flushOne st q).2.2.all isMut = true ∧ (flushOne st q).2.2.length ≤ 1 := by
  match q with
  | [] => exact ⟨rfl, by simp [flushOne]⟩
  | j :: rest =>
    cases hf : HashTable.unlocked_find st j with
    | none => rw [flushOne_none st j rest hf]; exact ⟨rfl, by simp⟩
    | some v =>
      cases hd : v.dirty with
      | false => rw [flushOne_clean st j rest v hf hd]; exact ⟨rfl, by simp⟩
      | true => rw [flushOne_dirty st j rest v hf hd]; exact ⟨rfl, by simp⟩

theorem flushLoop_succ_cons (n : Nat) (st : HashTable) (j : String)
    (rest : List String) :
    flushLoop (n + 1) st (j :: rest)
      = ((flushLoop n (flushOne st (j :: rest)).1 (flushOne st (j :: rest)).2.1).1,
         (flushLoop n (flushOne st (j :: rest)).1 (flushOne st (j :: rest)).2.1).2.1,
         (flushOne st (j :: rest)).2.2
           ++ (flushLoop n (flushOne st (j :: rest)).1
                 (flushOne st (j :: rest)).2.1).2.2) := rfl

theorem drain_flushLoop (txn : Nat) : ∀ (q : List String) (st : HashTable),
    (drain st q).1 = (drain (flushLoop txn st q).1 (flushLoop txn st q).2.1).1
    ∧ (drain st q).2 = (flushLoop txn st q).2.2
        ++ (drain (flushLoop txn st q).1 (flushLoop txn st q).2.1).2 := by
  induction txn with
  | zero => intro q st; simp [flushLoop]
  | succ n ih =>
    intro q st
    cases q with
    | nil => simp [flushLoop, drain]
    | cons j rest =>
      rw [flushLoop_succ_cons, flushOne_q]
      dsimp only
      constructor
      · rw [drain_cons]
        dsimp only
        exact (ih rest _).1
      · rw [drain_cons]
        dsimp only
        rw [(ih rest _).2, List.append_assoc]

theorem flushLoop_q_le (txn : Nat) : ∀ (q : List String) (st : HashTable),
    (flushLoop txn st q).2.1.length ≤ q.length := by
  induction txn with
  | zero => intro q st; simp [flushLoop]
  | succ n ih =>
    intro q st
    cases q with
    | nil => simp [flushLoop]
    | cons j rest =>
      rw [flushLoop_succ_cons, flushOne_q]
      dsimp only
      exact Nat.le_succ_of_le (ih rest _)

theorem flushLoop_q_lt (txn : Nat) (q : List String) (st : HashTable)
    (ht : 1 ≤ txn) (hq : q ≠ []) :
    (flushLoop txn st q).2.1.length < q.length := by
  cases txn with
  | zero => omega
  | succ n =>
    cases q with
    | nil => exact absurd rfl hq
    | cons j rest =>
      rw [flushLoop_succ_cons, flushOne_q]
      dsimp only
      exact Nat.lt_succ_of_le (flushLoop_q_le n rest _)

theorem flushLoop_ops (txn : Nat) : ∀ (q : List String) (st : HashTable),
    (flushLoop txn st q).2.2.all isMut = true
    ∧ (flushLoop txn st q).2.2.length ≤ txn := by
  induction txn with
  | zero => intro q st; exact ⟨rfl, by simp [flushLoop]⟩
  | succ n ih =>
    intro q st
    cases q with
    | nil => exact ⟨rfl, by simp [flushLoop]⟩
    | cons j rest =>
      rw [flushLoop_succ_cons]
      dsimp only
      constructor
      · rw [List.all_append, (flushOne_mut st (j :: rest)).1, (ih _ _).1]
        rfl
      · rw [List.length_append]
        have h1 := (flushOne_mut st (j :: rest)).2
        have h2 := (ih (flushOne st (j :: rest)).2.1 (flushOne st (j :: rest)).1).2
        omega

theorem flushDrain_succ_cons (f txn : Nat) (st : HashTable) (j : String)
    (rest : List String) :
    flushDrain (f + 1) txn st (j :: rest)
      = ((flushDrain f txn (flushSome txn st (j :: rest)).1
            (flushSome txn st (j :: rest)).2.1).1,
         (flushDrain f txn (flushSome txn st (j :: rest)).1
            (flushSome txn st (j :: rest)).2.1).2.1,
         (flushSome txn st (j :: rest)).2.2
           ++ (flushDrain f txn (flushSome txn st (j :: rest)).1
                 (flushSome txn st (j :: rest)).2.1).2.2) := rfl

theorem flushSome_proj (txn : Nat) (st : HashTable) (q : List String) :
    flushSome txn st q
      = ((flushLoop txn st q).1, (flushLoop txn st q).2.1,
         PersistOp.begin :: ((flushLoop txn st q).2.2 ++ [PersistOp.commit])) := rfl

theorem flushDrain_spec (txn : Nat) (ht : 1 ≤ txn) :
    ∀ (fuel : Nat) (q : List String) (st : HashTable), q.length ≤ fuel →
    (flushDrain fuel txn st q).2.1 = []
    ∧ (flushDrain fuel txn st q).1 = (drain st q).1
    ∧ (flushDrain fuel txn st q).2.2.filter isMut = (drain st q).2
    ∧ IsTxnSeq txn (flushDrain fuel txn st q).2.2 := by
  intro fuel
  induction fuel with
  | zero =>
    intro q st hle
    have hq : q = [] := List.eq_nil_of_length_eq_zero (Nat.le_zero.mp hle)
    subst hq
    exact ⟨rfl, rfl, rfl, IsTxnSeq.nil⟩
  | succ f ih =>
    intro q st hle
    cases q with
    | nil => exact ⟨rfl, rfl, rfl, IsTxnSeq.nil⟩
    | cons j rest =>
      rw [flushDrain_succ_cons, flushSome_proj]
      dsimp only
      have hlt : (flushLoop txn st (j :: rest)).2.1.length < (j :: rest).length :=
        flushLoop_q_lt txn (j :: rest) st ht (by simp)
      have hle' : (flushLoop txn st (j :: rest)).2.1.length ≤ f := by
        simp only [List.length_cons] at hle hlt
        omega
      obtain ⟨ih1, ih2, ih3, ih4⟩ := ih (flushLoop txn st (j :: rest)).2.1
        (flushLoop txn st (j :: rest)).1 hle'
      refine ⟨ih1, ?_, ?_, ?_⟩
      · rw [ih2, ← (drain_flushLoop txn (j :: rest) st).1]
      · have hmut := (flushLoop_ops txn (j :: rest) st).1
        have hself : (flushLoop txn st (j :: rest)).2.2.filter isMut
            = (flushLoop txn st (j :: rest)).2.2 :=
          List.filter_eq_self.mpr (by simpa [List.all_eq_true] using hmut)
        simp only [List.filter_append, List.filter_cons, isMut, hself, ih3]
        simp only [Bool.false_eq_true, if_false, List.filter_nil, List.append_nil,
          List.nil_append]
        exact ((drain_flushLoop txn (j :: rest) st).2).symm
      · have hshape :
            (PersistOp.begin :: ((flushLoop txn st (j :: rest)).2.2 ++ [PersistOp.commit]))
              ++ (flushDrain f txn (flushLoop txn st (j :: rest)).1
                    (flushLoop txn st (j :: rest)).2.1).2.2
            = PersistOp.begin :: ((flushLoop txn st (j :: rest)).2.2
                ++ PersistOp.commit
                  :: (flushDrain f txn (flushLoop txn st (j :: rest)).1
                        (flushLoop txn st (j :: rest)).2.1).2.2) := by
          simp
        rw [hshape]
        exact IsTxnSeq.txn _ _ (flushLoop_ops txn (j :: rest) st).1
          (flushLoop_ops txn (j :: rest) st).2 ih4

end Ep

namespace Ep

theorem opsForKey_filter_isMut (k : String) (t : List PersistOp) :
    opsForKey k (t.filter isMut) = opsForKey k t := by
  unfold opsForKey
  rw [List.filter_filter]
  apply List.filter_congr
  intro op _
  cases op <;> simp [opKey, isMut]

theorem slotDirty_flushOne_mono (st : HashTable) (q : List String) (k : String)
    (h : slotDirty st k = false) : slotDirty (flushOne st q).1 k = false := by
  match q with
  | [] => exact h
  | j :: rest =>
    cases hf : HashTable.unlocked_find st j with
    | none => rw [flushOne_none st j rest hf]; exact h
    | some v =>
      cases hd : v.dirty with
      | false => rw [flushOne_clean st j rest v hf hd]; exact h
      | true =>
        rw [flushOne_dirty st j rest v hf hd]
        exact slotDirty_markClean_false st j k h

theorem slotDirty_flushOne_head (st : HashTable) (j : String) (rest : List String) :
    slotDirty (flushOne st (j :: rest)).1 j = false := by
  cases hf : HashTable.unlocked_find st j with
  | none => rw [flushOne_none st j rest hf]; simp [slotDirty, hf]
  | some v =>
    cases hd : v.dirty with
    | false => rw [flushOne_clean st j rest v hf hd]; simp [slotDirty, hf, hd]
    | true =>
      rw [flushOne_dirty st j rest v hf hd]
      rw [slotDirty_eq, unlocked_find_markClean_self, hf]
      rfl

theorem slotDirty_flushLoop_mono (txn : Nat) : ∀ (q : List String) (st : HashTable)
    (k : String), slotDirty st k = false → slotDirty (flushLoop txn st q).1 k = false := by
  induction txn with
  | zero => intro q st k h; exact h
  | succ n ih =>
    intro q st k h
    cases q with
    | nil => exact h
    | cons j rest =>
      rw [flushLoop_succ_cons]
      dsimp only
      exact ih _ _ k (slotDirty_flushOne_mono st (j :: rest) k h)

theorem flushLoop_processed_clean (txn : Nat) : ∀ (q : List String) (st : HashTable)
    (k : String), k ∈ q.take txn → slotDirty (flushLoop txn st q).1 k = false := by
  induction txn with
  | zero => intro q st k h; simp at h
  | succ n ih =>
    intro q st k h
    cases q with
    | nil => simp at h
    | cons j rest =>
      rw [flushLoop_succ_cons]
      dsimp only
      rw [List.take_succ_cons] at h
      rcases List.mem_cons.mp h with hk | hk
      · subst hk
        exact slotDirty_flushLoop_mono n _ _ k (slotDirty_flushOne_head st k rest)
      · rw [flushOne_q]
        exact ih rest _ k hk

end Ep

namespace Modern

theorem countP_partition {α : Type} (p : α → Bool) :
    ∀ l : List α, l.countP p + l.countP (fun a => !(p a)) = l.length := by
  intro l
  induction l with
  | nil => rfl
  | cons x xs ih =>
    rw [List.countP_cons, List.countP_cons]
    cases h : p x <;> simp [h] <;> omega

theorem length_flatten_set {α : Type} :
    ∀ (l : List (List α)) (i : Nat) (b : List α), i < l.length →
    ((l.set i b).flatten).length + (l.getD i []).length
      = l.flatten.length + b.length := by
  intro l
  induction l with
  | nil => intro i b h; simp at h
  | cons x xs ih =>
    intro i b h
    cases i with
    | zero =>
      simp only [List.set_cons_zero, List.getD_cons_zero, List.flatten_cons,
        List.length_append]
      omega
    | succ n =>
      simp only [List.set_cons_succ, List.getD_cons_succ, List.flatten_cons,
        List.length_append]
      have := ih n b (by simpa using Nat.lt_of_succ_lt_succ h)
      omega

theorem set_found (h : HashTable) (k val : Nat) (v : StoredValue)
    (hf : findInBucket (h.buckets.getD (k % h.size) []) k = some v) :
    HashTable.set h k val
      = { h with buckets := (h.buckets.set (k % h.size)
            (overwriteSlot (h.buckets.getD (k % h.size) []) k val)) } := by
  unfold HashTable.set
  rw [hf]

theorem set_missing (h : HashTable) (k val : Nat)
    (hf : findInBucket (h.buckets.getD (k % h.size) []) k = none) :
    HashTable.set h k val
      = { h with buckets := (h.buckets.set (k % h.size) ({ key := k, value := val, deleted := false } :: h.buckets.getD (k % h.size) [])), numItems := h.numItems + 1 } := by
  unfold HashTable.set
  rw [hf]

theorem del_found_live (h : HashTable) (k : Nat) (v : StoredValue)
    (hf : findInBucket (h.buckets.getD (k % h.size) []) k = some v)
    (hd : v.deleted = false) :
    HashTable.del h k
      = { h with buckets := (h.buckets.set (k % h.size)
            (tombstoneSlot (h.buckets.getD (k % h.size) []) k)) } := by
  unfold HashTable.del
  rw [hf]
  simp [hd]

theorem del_found_dead (h : HashTable) (k : Nat) (v : StoredValue)
    (hf : findInBucket (h.buckets.getD (k % h.size) []) k = some v)
    (hd : v.deleted = true) :
    HashTable.del h k = h := by
  unfold HashTable.del
  rw [hf]
  simp [hd]

theorem del_missing (h : HashTable) (k : Nat)
    (hf : findInBucket (h.buckets.getD (k % h.size) []) k = none) :
    HashTable.del h k = h := by
  unfold HashTable.del
  rw [hf]

theorem applyOp_good (h : HashTable) (op : HTOp) (hg : Good h) :
    Good (applyOp h op) := by
  obtain ⟨hlen, hpos, hnum⟩ := hg
  cases op with
  | set k val =>
    have hi : k % h.size < h.buckets.length := by
      rw [hlen]; exact Nat.mod_lt _ hpos
    show Good (HashTable.set h k val)
    cases hf : findInBucket (h.buckets.getD (k % h.size) []) k with
    | some v =>
      rw [set_found h k val v hf]
      have hfs := length_flatten_set h.buckets (k % h.size)
        (overwriteSlot (h.buckets.getD (k % h.size) []) k val) hi
      have hlb : (overwriteSlot (h.buckets.getD (k % h.size) []) k val).length
          = (h.buckets.getD (k % h.size) []).length := by simp [overwriteSlot]
      refine ⟨by simpa using hlen, hpos, ?_⟩
      unfold allSlots at hnum ⊢
      dsimp only
      omega
    | none =>
      rw [set_missing h k val hf]
      have hfs := length_flatten_set h.buckets (k % h.size)
        ({ key := k, value := val, deleted := false }
          :: h.buckets.getD (k % h.size) []) hi
      refine ⟨by simpa using hlen, hpos, ?_⟩
      unfold allSlots at hnum ⊢
      dsimp only
      simp only [List.length_cons] at hfs
      omega
  | del k =>
    have hi : k % h.size < h.buckets.length := by
      rw [hlen]; exact Nat.mod_lt _ hpos
    show Good (HashTable.del h k)
    cases hf : findInBucket (h.buckets.getD (k % h.size) []) k with
    | none => rw [del_missing h k hf]; exact ⟨hlen, hpos, hnum⟩
    | some v =>
      cases hd : v.deleted with
      | true => rw [del_found_dead h k v hf hd]; exact ⟨hlen, hpos, hnum⟩
      | false =>
        rw [del_found_live h k v hf hd]
        have hfs := length_flatten_set h.buckets (k % h.size)
          (tombstoneSlot (h.buckets.getD (k % h.size) []) k) hi
        have hlb : (tombstoneSlot (h.buckets.getD (k % h.size) []) k).length
            = (h.buckets.getD (k % h.size) []).length := by simp [tombstoneSlot]
        refine ⟨by simpa using hlen, hpos, ?_⟩
        unfold allSlots at hnum ⊢
        dsimp only
        omega

theorem applyOps_good : ∀ (ops : List HTOp) (h : HashTable),
    Good h → Good (applyOps h ops) := by
  intro ops
  induction ops with
  | nil => exact fun h hg => hg
  | cons op ops ih =>
    intro h hg
    exact ih (applyOp h op) (applyOp_good h op hg)

theorem flatten_replicate_nil {α : Type} :
    ∀ n : Nat, (List.replicate n ([] : List α)).flatten = [] := by
  intro n
  induction n with
  | zero => rfl
  | succ m ih => simp [List.replicate_succ, List.flatten_cons, ih]

theorem emptyHT_good (n l : Nat) (h : 0 < n) : Good (emptyHT n l) := by
  refine ⟨by simp [emptyHT], h, ?_⟩
  simp [emptyHT, allSlots, flatten_replicate_nil]

end Modern

namespace Modern

theorem find?_flatten_single {α : Type} (p : α → Bool) :
    ∀ (l : List (List α)) (m : Nat), m < l.length →
    (∀ i, i < l.length → i ≠ m → ∀ a ∈ l.getD i [], ¬ p a) →
    l.flatten.find? p = (l.getD m []).find? p := by
  intro l
  induction l with
  | nil => intro m hm; simp at hm
  | cons x xs ih =>
    intro m hm hother
    cases m with
    | zero =>
      have hxs : xs.flatten.find? p = none := by
        rw [List.find?_eq_none]
        intro a ha
        obtain ⟨bl, hbl, habl⟩ := List.mem_flatten.mp ha
        obtain ⟨n, hn⟩ := List.mem_iff_get?.mp hbl
        have hnlen : n < xs.length := (List.get?_eq_some.mp hn).1
        have hbd : xs.getD n [] = bl := by
          rw [List.getD_eq_getElem?_getD]
          simp only [← List.get?_eq_getElem?]
          rw [hn]
          rfl
        refine hother (n + 1) (by simpa using Nat.succ_lt_succ hnlen)
          (by omega) a ?_
        rw [List.getD_cons_succ, hbd]
        exact habl
      rw [List.flatten_cons, List.find?_append, hxs, List.getD_cons_zero]
      cases x.find? p <;> rfl
    | succ m' =>
      have hx : x.find? p = none := by
        rw [List.find?_eq_none]
        intro a ha
        exact hother 0 (by simp) (by omega) a (by simpa using ha)
      rw [List.flatten_cons, List.find?_append, hx, List.getD_cons_succ]
      rw [Option.none_or]
      exact ih m' (Nat.lt_of_succ_lt_succ hm)
        (fun i hi hne a ha => hother (i + 1) (by simpa using Nat.succ_lt_succ hi)
          (by omega) a (by simpa [List.getD_cons_succ] using ha))

theorem getD_rehash (s : List StoredValue) (n i : Nat) (h : i < n) :
    (rehash s n).getD i [] = s.filter (fun v => v.key % n == i) := by
  unfold rehash
  rw [List.getD_eq_getElem?_getD, List.getElem?_map, List.getElem?_range h]
  rfl

theorem length_rehash (s : List StoredValue) (n : Nat) :
    (rehash s n).length = n := by
  simp [rehash]

theorem mem_flatten_rehash (s : List StoredValue) (n : Nat) (hn : 0 < n)
    (v : StoredValue) : v ∈ (rehash s n).flatten ↔ v ∈ s := by
  rw [List.mem_flatten]
  constructor
  · rintro ⟨b, hb, hv⟩
    obtain ⟨i, hi, rfl⟩ := List.mem_map.mp hb
    exact (List.mem_filter.mp hv).1
  · intro hv
    refine ⟨s.filter (fun w => w.key % n == v.key % n), ?_, ?_⟩
    · exact List.mem_map.mpr ⟨v.key % n, List.mem_range.mpr (Nat.mod_lt _ hn), rfl⟩
    · exact List.mem_filter.mpr ⟨hv, by simp⟩

theorem find?_eq_of_mem_iff (l l' : List StoredValue) (k : Nat)
    (hmem : ∀ v, v ∈ l ↔ v ∈ l')
    (huniq : ∀ v ∈ l, ∀ w ∈ l, v.key = w.key → v = w) :
    l.find? (fun v => v.key == k) = l'.find? (fun v => v.key == k) := by
  cases hl : l.find? (fun v => v.key == k) with
  | some v =>
    have hvl : v ∈ l := List.mem_of_find?_eq_some hl
    have hvk : v.key = k := by simpa using List.find?_some hl
    cases hl' : l'.find? (fun v => v.key == k) with
    | some w =>
      have hwl : w ∈ l := (hmem w).mpr (List.mem_of_find?_eq_some hl')
      have hwk : w.key = k := by simpa using List.find?_some hl'
      rw [huniq v hvl w hwl (by rw [hvk, hwk])]
    | none =>
      exfalso
      have := List.find?_eq_none.mp hl' v ((hmem v).mp hvl)
      simp [hvk] at this
  | none =>
    cases hl' : l'.find? (fun v => v.key == k) with
    | some w =>
      exfalso
      have hwl : w ∈ l := (hmem w).mpr (List.mem_of_find?_eq_some hl')
      have hwk : w.key = k := by simpa using List.find?_some hl'
      have := List.find?_eq_none.mp hl w hwl
      simp [hwk] at this
    | none => rfl

theorem find_eq_flatten (h : HashTable) (k : Nat) (w : Bool)
    (hlen : h.buckets.length = h.size) (hpos : 0 < h.size)
    (hplace : ∀ i, i < h.buckets.length → ∀ v ∈ h.buckets.getD i [],
      v.key % h.size = i) :
    HashTable.find h k w
      = wantsFilter ((allSlots h).find? (fun v => v.key == k)) w := by
  unfold HashTable.find findInBucket allSlots
  congr 1
  symm
  apply find?_flatten_single
  · rw [hlen]; exact Nat.mod_lt _ hpos
  · intro i hi hne v hv hp
    have hplaced := hplace i hi v hv
    have hk : v.key = k := by simpa using hp
    exact hne (by rw [← hplaced, hk])

theorem resize_valid (h : HashTable) (n : Nat) (hn0 : 0 < n)
    (hn : n ≤ maxHtSize) :
    HashTable.resize h n
      = { h with size := n, buckets := rehash (allSlots h) n } := by
  unfold HashTable.resize
  rw [if_neg]
  push_neg
  exact ⟨by omega, hn⟩

end Modern

namespace Modern

theorem countP_deleted_partition (l : List StoredValue) :
    l.countP (fun v => v.deleted) + l.countP (fun v => !v.deleted) = l.length := by
  simpa using countP_partition (fun v : StoredValue => v.deleted) l

end Modern

/-- C4: the flusher lifecycle state machine follows the cycle Stopped →
Running → ShuttingDown → Stopped: `startFlusher` spawns the worker and moves
to RUNNING only from STOPPED (otherwise a no-op, and it never yields STOPPED
from another state), `stopFlusher` moves to SHUTTING_DOWN only from RUNNING
(otherwise a no-op), and only `flusherStopped` — the worker's exit path —
returns the state to STOPPED.  Stated as the full transition table over the
three states. -/
theorem Ep.flusher_state_machine :
    Ep.startFlusher Ep.flusher_state.STOPPED = (Ep.flusher_state.RUNNING, true)
    ∧ Ep.startFlusher Ep.flusher_state.RUNNING = (Ep.flusher_state.RUNNING, false)
    ∧ Ep.startFlusher Ep.flusher_state.SHUTTING_DOWN
        = (Ep.flusher_state.SHUTTING_DOWN, false)
    ∧ Ep.stopFlusher Ep.flusher_state.RUNNING
        = (Ep.flusher_state.SHUTTING_DOWN, true)
    ∧ Ep.stopFlusher Ep.flusher_state.STOPPED = (Ep.flusher_state.STOPPED, false)
    ∧ Ep.stopFlusher Ep.flusher_state.SHUTTING_DOWN
        = (Ep.flusher_state.SHUTTING_DOWN, false)
    ∧ Ep.flusherStopped Ep.flusher_state.STOPPED = Ep.flusher_state.STOPPED
    ∧ Ep.flusherStopped Ep.flusher_state.RUNNING = Ep.flusher_state.STOPPED
    ∧ Ep.flusherStopped Ep.flusher_state.SHUTTING_DOWN
        = Ep.flusher_state.STOPPED := by
  decide

/-- C5 counterexample: with equal priorities, the ready-set comparator of the
source ranks the task with the LATER due date (but lower id) first, while the
spec's claimed ordering ranks the earlier-due-date task first; so the claimed
priority-then-due-date-then-id order does not match the code. -/
theorem Tasks.ready_order_counterexample :
    Tasks.specReadyOrder { priority := 5, taskId := 2, waketime := 5 }
        { priority := 5, taskId := 1, waketime := 100 } = true
    ∧ Tasks.readyRunsFirst { priority := 5, taskId := 2, waketime := 5 }
        { priority := 5, taskId := 1, waketime := 100 } = false
    ∧ Tasks.readyRunsFirst { priority := 5, taskId := 1, waketime := 100 }
        { priority := 5, taskId := 2, waketime := 5 } = true := by
  decide

/-- C5 (corrected): the ready-set comparator `CompareByPriority` is a total
order ranking tasks first by priority (higher runs first) and then, within
equal priority, by lower task id (older task first); the due date (waketime)
plays no part in it.  The separate comparator `CompareByDueDate` orders
solely by earlier due date. -/
theorem Tasks.ready_order_amended (t u : Tasks.GlobalTask) (w w' : Nat) :
    (Tasks.readyRunsFirst t u = true
      ↔ (u.priority < t.priority
          ∨ (t.priority = u.priority ∧ t.taskId < u.taskId)))
    ∧ (Tasks.readyRunsFirst t u = true ∨ Tasks.readyRunsFirst u t = true
        ∨ (t.priority = u.priority ∧ t.taskId = u.taskId))
    ∧ Tasks.CompareByPriority { t with waketime := w } { u with waketime := w' }
        = Tasks.CompareByPriority t u
    ∧ (Tasks.CompareByDueDate t u = true ↔ u.waketime < t.waketime) := by
  refine ⟨?_, ?_, ?_, ?_⟩
  · unfold Tasks.readyRunsFirst Tasks.CompareByPriority
    split
    · rename_i hbeq
      have hp : u.priority = t.priority := by simpa using hbeq
      simp only [decide_eq_true_eq, hp, eq_self_iff_true, true_and]
      omega
    · rename_i hbeq
      have hp : ¬ u.priority = t.priority := by simpa using hbeq
      simp only [decide_eq_true_eq]
      omega
  · unfold Tasks.readyRunsFirst Tasks.CompareByPriority
    split
    · rename_i h1
      split
      · rename_i h2
        have hp : u.priority = t.priority := by simpa using h1
        simp only [decide_eq_true_eq]
        omega
      · rename_i h2
        have hp : u.priority = t.priority := by simpa using h1
        have hp' : ¬ t.priority = u.priority := by simpa using h2
        omega
    · rename_i h1
      split
      · rename_i h2
        have hp : ¬ u.priority = t.priority := by simpa using h1
        have hp' : t.priority = u.priority := by simpa using h2
        omega
      · rename_i h2
        have hp : ¬ u.priority = t.priority := by simpa using h1
        simp only [decide_eq_true_eq]
        omega
  · rfl
  · unfold Tasks.CompareByDueDate
    simp

/-- C9: when the flusher pops a key whose slot is still present in the hash
table but not dirty, it issues no persistence operation at all for that key;
the queue entry is discarded and the table is left unmodified. -/
theorem Ep.clean_slot_skipped (st : Ep.HashTable) (q : List String) (k : String)
    (v : Ep.StoredValue) (hf : Ep.HashTable.unlocked_find st k = some v)
    (hd : v.dirty = false) :
    Ep.flushOne st (k :: q) = (st, q, []) :=
  Ep.flushOne_clean st k q v hf hd

/-- C9 witness: a concrete clean slot is skipped by `flushOne`. -/
theorem Ep.clean_slot_skipped_witness :
    Ep.HashTable.unlocked_find
        [{ key := "a", flags := 0, exptime := 0, value := "x", dirty := false }] "a"
      = some { key := "a", flags := 0, exptime := 0, value := "x", dirty := false }
    ∧ ({ key := "a", flags := 0, exptime := 0, value := "x", dirty := false } :
        Ep.StoredValue).dirty = false
    ∧ Ep.flushOne
        [{ key := "a", flags := 0, exptime := 0, value := "x", dirty := false }]
        ["a", "b"]
      = ([{ key := "a", flags := 0, exptime := 0, value := "x", dirty := false }],
         ["b"], []) :=
  ⟨by decide, rfl,
   Ep.clean_slot_skipped
     [{ key := "a", flags := 0, exptime := 0, value := "x", dirty := false }]
     ["b"] "a"
     { key := "a", flags := 0, exptime := 0, value := "x", dirty := false }
     (by decide) rfl⟩

/-- C10: `EventuallyPersistentStore::set` invokes its callback exactly once
with `true`, whatever mutation result the hash-table set returns (including a
capacity failure); no failure is surfaced through the store's set
interface. -/
theorem Ep.set_callback_always_true (s : Ep.EventuallyPersistentStore)
    (i : Ep.Item) (mt : Ep.mutation_type_t) (st' : Ep.HashTable) :
    (Ep.EventuallyPersistentStore.setCore s i (mt, st')).2 = [true]
    ∧ (Ep.EventuallyPersistentStore.set s i).2 = [true] :=
  ⟨rfl, rfl⟩

/-- C3 counterexample: after a first set the slot for "k1" is dirty, yet the
subsequent del enqueues "k1" again — the dirty queue holds the key twice, so
a key whose slot is already dirty IS re-enqueued (by del). -/
theorem Ep.del_requeues_dirty_key_counterexample :
    Ep.slotDirty ((Ep.EventuallyPersistentStore.set
        { storage := [], towrite := [] }
        { key := "k1", flags := 0, exptime := 0, value := "v1" }).1).storage "k1"
      = true
    ∧ ((Ep.EventuallyPersistentStore.del
        ((Ep.EventuallyPersistentStore.set { storage := [], towrite := [] }
          { key := "k1", flags := 0, exptime := 0, value := "v1" }).1) "k1").1).towrite
      = ["k1", "k1"] := by
  decide

/-- C3 (corrected): for set operations the key is enqueued exactly when the
slot was not already dirty (clean or absent — `WAS_CLEAN` or `NOT_FOUND`), so
a set on an already-dirty slot does not re-enqueue; a del, however, enqueues
the key whenever the key existed, regardless of the slot's dirty state. -/
theorem Ep.enqueue_policy_amended (s : Ep.EventuallyPersistentStore)
    (i : Ep.Item) (k : String) :
    (Ep.EventuallyPersistentStore.set s i).1.towrite
      = (if Ep.slotDirty s.storage i.key then s.towrite
         else s.towrite ++ [i.key])
    ∧ (Ep.EventuallyPersistentStore.del s k).1.towrite
      = (if (Ep.HashTable.unlocked_find s.storage k).isSome then
           s.towrite ++ [k]
         else s.towrite) :=
  ⟨Ep.ep_set_towrite s i, Ep.ep_del_towrite s k⟩

/-- C6: with a positive `txnSize`, a flush cycle's persistence trace is a
sequence of transactions — each bracketed by exactly one `begin` and one
`commit` with at most `txnSize` set/del operations in between — and the
entire swapped-out queue is drained. -/
theorem Ep.flush_transaction_batching (txn : Nat)
    (s : Ep.EventuallyPersistentStore) (ht : 1 ≤ txn) :
    Ep.IsTxnSeq txn (Ep.EventuallyPersistentStore.flush txn s).2
    ∧ (Ep.flushDrain s.towrite.length txn s.storage s.towrite).2.1 = [] := by
  obtain ⟨h1, h2, h3, h4⟩ :=
    Ep.flushDrain_spec txn ht s.towrite.length s.towrite s.storage (le_refl _)
  exact ⟨h4, h1⟩

/-- C6 witness: a concrete three-key queue flushed with a batch size of two. -/
theorem Ep.flush_transaction_batching_witness :
    1 ≤ 2
    ∧ (Ep.IsTxnSeq 2 (Ep.EventuallyPersistentStore.flush 2
        { storage := [{ key := "a", flags := 0, exptime := 0, value := "x", dirty := true }],
          towrite := ["a", "b", "c"] }).2
      ∧ (Ep.flushDrain (["a", "b", "c"] : List String).length 2
          [{ key := "a", flags := 0, exptime := 0, value := "x", dirty := true }]
          ["a", "b", "c"]).2.1 = []) :=
  ⟨by decide,
   Ep.flush_transaction_batching 2
     { storage := [{ key := "a", flags := 0, exptime := 0, value := "x", dirty := true }],
       towrite := ["a", "b", "c"] } (by decide)⟩

/-- C7: for every sequence of set/del operations on a table with N buckets
and L locks, `getNumItems()` equals the number of live slots plus the number
of tombstoned slots. -/
theorem Modern.numItems_live_add_deleted (ops : List Modern.HTOp) (n l : Nat)
    (hn : 0 < n) :
    Modern.HashTable.getNumItems (Modern.applyOps (Modern.emptyHT n l) ops)
      = Modern.liveCount (Modern.applyOps (Modern.emptyHT n l) ops)
        + Modern.deletedCount (Modern.applyOps (Modern.emptyHT n l) ops) := by
  obtain ⟨-, -, hnum⟩ :=
    Modern.applyOps_good ops (Modern.emptyHT n l) (Modern.emptyHT_good n l hn)
  unfold Modern.HashTable.getNumItems Modern.liveCount Modern.deletedCount
  have hpart := Modern.countP_deleted_partition
    (Modern.allSlots (Modern.applyOps (Modern.emptyHT n l) ops))
  omega

/-- C7 witness: a concrete operation sequence on a four-bucket two-lock
table. -/
theorem Modern.numItems_live_add_deleted_witness :
    0 < 4
    ∧ Modern.HashTable.getNumItems (Modern.applyOps (Modern.emptyHT 4 2)
        [Modern.HTOp.set 1 10, Modern.HTOp.set 5 20, Modern.HTOp.del 1,
         Modern.HTOp.set 9 30])
      = Modern.liveCount (Modern.applyOps (Modern.emptyHT 4 2)
          [Modern.HTOp.set 1 10, Modern.HTOp.set 5 20, Modern.HTOp.del 1,
           Modern.HTOp.set 9 30])
        + Modern.deletedCount (Modern.applyOps (Modern.emptyHT 4 2)
            [Modern.HTOp.set 1 10, Modern.HTOp.set 5 20, Modern.HTOp.del 1,
             Modern.HTOp.set 9 30]) :=
  ⟨by decide,
   Modern.numItems_live_add_deleted
     [Modern.HTOp.set 1 10, Modern.HTOp.set 5 20, Modern.HTOp.del 1,
      Modern.HTOp.set 9 30] 4 2 (by decide)⟩

/-- C1 counterexample: set "k1" into an empty store, then run a flush cycle
whose persistence commit fails.  Contrary to the claim, "k1" does NOT remain
dirty (the flusher marked it clean before the write and the queue entry was
consumed), and the next flush cycle delivers nothing at all. -/
theorem Ep.commit_failure_counterexample :
    Ep.slotDirty ((Ep.flushCycleCommitFail 250
        ((Ep.EventuallyPersistentStore.set { storage := [], towrite := [] }
          { key := "k1", flags := 0, exptime := 0, value := "v1" }).1)).1).storage
        "k1" = false
    ∧ (Ep.EventuallyPersistentStore.flush 250
        ((Ep.flushCycleCommitFail 250
          ((Ep.EventuallyPersistentStore.set { storage := [], towrite := [] }
            { key := "k1", flags := 0, exptime := 0, value := "v1" }).1)).1)).2
      = [] := by
  decide

/-- C1 (corrected): an exception from the persistence layer during a flush
cycle is caught at the flusher worker boundary (`launch_flusher_thread`) and
does not crash the store; however, every key already processed in the failed
cycle was marked clean in the hash table before the failure and its queue
entry consumed, so such keys are NOT dirty afterwards, and the store's dirty
queue after the failed cycle is the fresh queue created at swap time — a
subsequent flush cycle on that queue delivers nothing for those keys. -/
theorem Ep.flusher_exception_boundary_amended (txn : Nat)
    (s : Ep.EventuallyPersistentStore) (k : String) (e : String)
    (hk : k ∈ s.towrite.take txn) :
    Ep.launch_flusher_thread (Except.error e)
        = Ep.FlusherThreadExit.caughtException e
    ∧ Ep.slotDirty ((Ep.flushCycleCommitFail txn s).1).storage k = false
    ∧ (Ep.EventuallyPersistentStore.flush txn (Ep.flushCycleCommitFail txn s).1).2
        = [] := by
  refine ⟨rfl, ?_, rfl⟩
  exact Ep.flushLoop_processed_clean txn s.towrite s.storage k hk

/-- C1 witness: a concrete store whose only dirty key is processed by the
failing cycle. -/
theorem Ep.flusher_exception_boundary_witness :
    "k1" ∈ (["k1"] : List String).take 250
    ∧ (Ep.launch_flusher_thread (Except.error "disk full")
        = Ep.FlusherThreadExit.caughtException "disk full"
      ∧ Ep.slotDirty ((Ep.flushCycleCommitFail 250
          { storage := [{ key := "k1", flags := 0, exptime := 0, value := "v1",
                          dirty := true }],
            towrite := ["k1"] }).1).storage "k1" = false
      ∧ (Ep.EventuallyPersistentStore.flush 250
          (Ep.flushCycleCommitFail 250
            { storage := [{ key := "k1", flags := 0, exptime := 0, value := "v1",
                            dirty := true }],
              towrite := ["k1"] }).1).2 = []) :=
  ⟨by decide,
   Ep.flusher_exception_boundary_amended 250
     { storage := [{ key := "k1", flags := 0, exptime := 0, value := "v1",
                     dirty := true }],
       towrite := ["k1"] } "k1" "disk full" (by decide)⟩

/-- C2 counterexample: set "k1" then delete it before a flush; the
persistence layer receives the `del` for "k1" TWICE (one per queue entry),
not exactly once as claimed — the set enqueued the key and the del enqueued
it again. -/
theorem Ep.set_del_two_dels_counterexample :
    Ep.opsForKey "k1" (Ep.EventuallyPersistentStore.flush 250
        ((Ep.EventuallyPersistentStore.del
          ((Ep.EventuallyPersistentStore.set { storage := [], towrite := [] }
            { key := "k1", flags := 0, exptime := 0, value := "v1" }).1)
          "k1").1)).2
      = [Ep.PersistOp.del "k1", Ep.PersistOp.del "k1"]
    ∧ Ep.opsForKey "k1" (Ep.EventuallyPersistentStore.flush 250
        ((Ep.EventuallyPersistentStore.del
          ((Ep.EventuallyPersistentStore.set { storage := [], towrite := [] }
            { key := "k1", flags := 0, exptime := 0, value := "v1" }).1)
          "k1").1)).2
      ≠ [Ep.PersistOp.del "k1"] := by
  constructor
  · decide
  · decide

/-- C2 (corrected): per-key flush-time re-resolution delivers only the final
state.  Starting from a store where `k` is not pending (slot clean or absent,
`k` not in the dirty queue): setting `k` twice with different items before a
flush makes the persistence layer receive exactly one `set` carrying the
second item; setting then deleting `k` makes it receive only `del`
operations for `k` and never a `set` — but the `del` is received once per
queue entry, here twice, not exactly once. -/
theorem Ep.flush_delivers_final_state_amended (txn : Nat)
    (s : Ep.EventuallyPersistentStore) (i1 i2 : Ep.Item) (k : String)
    (ht : 1 ≤ txn) (h1 : i1.key = k) (h2 : i2.key = k)
    (hcl : Ep.slotDirty s.storage k = false) (hq : k ∉ s.towrite) :
    Ep.opsForKey k (Ep.EventuallyPersistentStore.flush txn
        (Ep.EventuallyPersistentStore.set
          (Ep.EventuallyPersistentStore.set s i1).1 i2).1).2
      = [Ep.PersistOp.set i2]
    ∧ Ep.opsForKey k (Ep.EventuallyPersistentStore.flush txn
        (Ep.EventuallyPersistentStore.del
          (Ep.EventuallyPersistentStore.set s i1).1 k).1).2
      = [Ep.PersistOp.del k, Ep.PersistOp.del k] := by
  have hst1 : Ep.HashTable.unlocked_find
      ((Ep.EventuallyPersistentStore.set s i1).1).storage k
      = some { key := k, flags := i1.flags, exptime := i1.exptime,
               value := i1.value, dirty := true } := by
    rw [Ep.ep_set_storage]
    have hx := Ep.unlocked_find_set_self s.storage i1
    rw [h1] at hx
    exact hx
  have htw1 : ((Ep.EventuallyPersistentStore.set s i1).1).towrite
      = s.towrite ++ [k] := by
    rw [Ep.ep_set_towrite, h1, hcl]
    simp
  constructor
  · have hdirty1 : Ep.slotDirty
        ((Ep.EventuallyPersistentStore.set s i1).1).storage k = true := by
      rw [Ep.slotDirty_eq, hst1]
      rfl
    have hst2 : Ep.HashTable.unlocked_find
        ((Ep.EventuallyPersistentStore.set
          (Ep.EventuallyPersistentStore.set s i1).1 i2).1).storage k
        = some { key := k, flags := i2.flags, exptime := i2.exptime,
                 value := i2.value, dirty := true } := by
      rw [Ep.ep_set_storage]
      have hx := Ep.unlocked_find_set_self
        ((Ep.EventuallyPersistentStore.set s i1).1).storage i2
      rw [h2] at hx
      exact hx
    have htw2 : ((Ep.EventuallyPersistentStore.set
        (Ep.EventuallyPersistentStore.set s i1).1 i2).1).towrite
        = s.towrite ++ [k] := by
      rw [Ep.ep_set_towrite, h2, hdirty1, htw1]
      simp
    obtain ⟨-, -, hfilter, -⟩ := Ep.flushDrain_spec txn ht
      ((Ep.EventuallyPersistentStore.set
        (Ep.EventuallyPersistentStore.set s i1).1 i2).1).towrite.length
      ((Ep.EventuallyPersistentStore.set
        (Ep.EventuallyPersistentStore.set s i1).1 i2).1).towrite
      ((Ep.EventuallyPersistentStore.set
        (Ep.EventuallyPersistentStore.set s i1).1 i2).1).storage (le_refl _)
    have hflush : (Ep.EventuallyPersistentStore.flush txn
        (Ep.EventuallyPersistentStore.set
          (Ep.EventuallyPersistentStore.set s i1).1 i2).1).2
        = (Ep.flushDrain
            ((Ep.EventuallyPersistentStore.set
              (Ep.EventuallyPersistentStore.set s i1).1 i2).1).towrite.length txn
            ((Ep.EventuallyPersistentStore.set
              (Ep.EventuallyPersistentStore.set s i1).1 i2).1).storage
            ((Ep.EventuallyPersistentStore.set
              (Ep.EventuallyPersistentStore.set s i1).1 i2).1).towrite).2.2 := rfl
    rw [hflush, ← Ep.opsForKey_filter_isMut, hfilter]
    rw [Ep.drain_dirty k _ rfl _ _ hst2]
    rw [htw2]
    have hkmem : k ∈ s.towrite ++ [k] := by simp
    rw [if_pos hkmem, ← h2]
  · have hsome : (Ep.HashTable.unlocked_find
        ((Ep.EventuallyPersistentStore.set s i1).1).storage k).isSome = true := by
      rw [hst1]
      rfl
    have hst3 : Ep.HashTable.unlocked_find
        ((Ep.EventuallyPersistentStore.del
          (Ep.EventuallyPersistentStore.set s i1).1 k).1).storage k = none := by
      rw [Ep.ep_del_storage]
      exact Ep.unlocked_find_del_self _ k
    have htw3 : ((Ep.EventuallyPersistentStore.del
        (Ep.EventuallyPersistentStore.set s i1).1 k).1).towrite
        = s.towrite ++ [k] ++ [k] := by
      rw [Ep.ep_del_towrite, hsome, htw1]
      simp
    obtain ⟨-, -, hfilter, -⟩ := Ep.flushDrain_spec txn ht
      ((Ep.EventuallyPersistentStore.del
        (Ep.EventuallyPersistentStore.set s i1).1 k).1).towrite.length
      ((Ep.EventuallyPersistentStore.del
        (Ep.EventuallyPersistentStore.set s i1).1 k).1).towrite
      ((Ep.EventuallyPersistentStore.del
        (Ep.EventuallyPersistentStore.set s i1).1 k).1).storage (le_refl _)
    have hflush : (Ep.EventuallyPersistentStore.flush txn
        (Ep.EventuallyPersistentStore.del
          (Ep.EventuallyPersistentStore.set s i1).1 k).1).2
        = (Ep.flushDrain
            ((Ep.EventuallyPersistentStore.del
              (Ep.EventuallyPersistentStore.set s i1).1 k).1).towrite.length txn
            ((Ep.EventuallyPersistentStore.del
              (Ep.EventuallyPersistentStore.set s i1).1 k).1).storage
            ((Ep.EventuallyPersistentStore.del
              (Ep.EventuallyPersistentStore.set s i1).1 k).1).towrite).2.2 := rfl
    rw [hflush, ← Ep.opsForKey_filter_isMut, hfilter]
    rw [(Ep.drain_absent k _ _ hst3).1]
    rw [htw3]
    rw [List.filter_append, List.filter_append]
    have hnil : s.towrite.filter (fun j => j == k) = [] := by
      rw [List.filter_eq_nil_iff]
      intro a ha hbeq
      have hak : a = k := by simpa using hbeq
      exact hq (hak ▸ ha)
    rw [hnil]
    simp

/-- C2 witness: the concrete scenario on an empty store with a batch size of
250. -/
theorem Ep.flush_delivers_final_state_witness :
    1 ≤ 250
    ∧ ({ key := "k1", flags := 0, exptime := 0, value := "v1" } : Ep.Item).key = "k1"
    ∧ ({ key := "k1", flags := 7, exptime := 9, value := "v2" } : Ep.Item).key = "k1"
    ∧ Ep.slotDirty ([] : Ep.HashTable) "k1" = false
    ∧ "k1" ∉ ([] : List String)
    ∧ (Ep.opsForKey "k1" (Ep.EventuallyPersistentStore.flush 250
          (Ep.EventuallyPersistentStore.set
            (Ep.EventuallyPersistentStore.set { storage := [], towrite := [] }
              { key := "k1", flags := 0, exptime := 0, value := "v1" }).1
            { key := "k1", flags := 7, exptime := 9, value := "v2" }).1).2
        = [Ep.PersistOp.set { key := "k1", flags := 7, exptime := 9, value := "v2" }]
      ∧ Ep.opsForKey "k1" (Ep.EventuallyPersistentStore.flush 250
          (Ep.EventuallyPersistentStore.del
            (Ep.EventuallyPersistentStore.set { storage := [], towrite := [] }
              { key := "k1", flags := 0, exptime := 0, value := "v1" }).1
            "k1").1).2
        = [Ep.PersistOp.del "k1", Ep.PersistOp.del "k1"]) :=
  ⟨by decide, rfl, rfl, rfl, by decide,
   Ep.flush_delivers_final_state_amended 250 { storage := [], towrite := [] }
     { key := "k1", flags := 0, exptime := 0, value := "v1" }
     { key := "k1", flags := 7, exptime := 9, value := "v2" } "k1"
     (by decide) rfl rfl rfl (by decide)⟩

/-- C8: on a well-formed table, `resize(newSize)` to any in-range positive
size preserves every slot — `find` answers identically for every key before
and after the resize, shrink and grow alike — and a resize request beyond the
maximum representable size is a no-op leaving the whole table (bucket count
included) unchanged. -/
theorem Modern.resize_preserves_find (h : Modern.HashTable) (n m k : Nat)
    (w : Bool) (hwf : Modern.WF h) (hn0 : 0 < n) (hn : n ≤ Modern.maxHtSize)
    (hm : Modern.maxHtSize < m) :
    Modern.HashTable.find (Modern.HashTable.resize h n) k w
        = Modern.HashTable.find h k w
    ∧ Modern.HashTable.resize h m = h := by
  obtain ⟨hlen, hpos, huniq, hplace⟩ := hwf
  constructor
  · rw [Modern.resize_valid h n hn0 hn]
    have hplaceR : ∀ i, i < (Modern.rehash (Modern.allSlots h) n).length →
        ∀ v ∈ (Modern.rehash (Modern.allSlots h) n).getD i [], v.key % n = i := by
      intro i hi v hv
      rw [Modern.length_rehash] at hi
      rw [Modern.getD_rehash _ _ _ hi] at hv
      simpa using (List.mem_filter.mp hv).2
    have hfr := Modern.find_eq_flatten
      { h with size := n, buckets := Modern.rehash (Modern.allSlots h) n } k w
      (Modern.length_rehash (Modern.allSlots h) n) hn0 hplaceR
    have hfh := Modern.find_eq_flatten h k w hlen hpos hplace
    rw [hfr, hfh]
    congr 1
    apply Modern.find?_eq_of_mem_iff
    · intro v
      exact Modern.mem_flatten_rehash (Modern.allSlots h) n hn0 v
    · intro v hv v' hv' hkey
      exact huniq v ((Modern.mem_flatten_rehash _ _ hn0 v).mp hv)
        v' ((Modern.mem_flatten_rehash _ _ hn0 v').mp hv') hkey
  · unfold Modern.HashTable.resize
    rw [if_pos (Or.inr hm)]

/-- C8 witness: a concrete well-formed five-bucket table shrunk to three
buckets, and an oversize request left as a no-op. -/
theorem Modern.resize_preserves_find_witness :
    Modern.WF { size := 5, locks := 3,
                buckets := [[], [{ key := 1, value := 10, deleted := false }], [{ key := 7, value := 20, deleted := false }], [], []], numItems := 2 }
    ∧ 0 < 3 ∧ 3 ≤ Modern.maxHtSize ∧ Modern.maxHtSize < 2147483648
    ∧ (Modern.HashTable.find (Modern.HashTable.resize
          { size := 5, locks := 3,
            buckets := [[], [{ key := 1, value := 10, deleted := false }], [{ key := 7, value := 20, deleted := false }], [], []], numItems := 2 } 3) 7 false
        = Modern.HashTable.find
            { size := 5, locks := 3,
              buckets := [[], [{ key := 1, value := 10, deleted := false }], [{ key := 7, value := 20, deleted := false }], [], []], numItems := 2 } 7 false
      ∧ Modern.HashTable.resize
          { size := 5, locks := 3,
            buckets := [[], [{ key := 1, value := 10, deleted := false }], [{ key := 7, value := 20, deleted := false }], [], []], numItems := 2 } 2147483648
        = { size := 5, locks := 3,
            buckets := [[], [{ key := 1, value := 10, deleted := false }], [{ key := 7, value := 20, deleted := false }], [], []], numItems := 2 }) :=
  ⟨by decide, by decide, by decide, by decide,
   Modern.resize_preserves_find
     { size := 5, locks := 3,
       buckets := [[], [{ key := 1, value := 10, deleted := false }], [{ key := 7, value := 20, deleted := false }], [], []], numItems := 2 } 3 2147483648 7 false
     (by decide) (by decide) (by decide) (by decide)⟩
